import Mathlib

/-!
Verification of the Ontolearn concept-learning core against its
natural-language specification.

The Python sources are shallowly embedded:

* `src/core/util.py` — `decompose` / `getCombos` (size-budget decomposition
  used by the refinement operator's length combinatorics);
* `src/ontolearn/concept_generator.py` — `ConceptGenerator` with its memo
  tables, canonicalizing sorter, `negation`, `union`, `intersection`,
  `existential_restriction`, `universal_restriction` and
  `get_instances_for_restrictions`;
* `src/ontolearn/base_concept_learner.py` — `BaseConceptLearner.__init__`;
* `src/examples/concept_learning_evaluation.py` — `compute_f1_score`.

Python objects are modelled with explicit identities (`id : ℕ`): Python
`dict` keys compare by object identity for these classes, so memo tables
are association lists keyed by ids.  Individuals are natural numbers and
extensions are `Finset ℕ`.  State-mutating methods become functions from a
generator state to a (result, state) pair; the one method that can raise
(`negation`, via a registry `KeyError`/`ValueError`) returns an `Option`.
-/

namespace Ontolearn

/-! ## `src/core/util.py`: `decompose` and `getCombos`

Python's `decompose(number, upperlimit, bisher, combosTmp)` runs a loop
`i = min(number, upperlimit) .. 1`; each iteration builds
`newbisher = bisher + [i]` (or `[]` when `number - i == 1`, in which case
it is never used), recurses with budget `number - i - 1` when
`number - i > 1`, and appends `newbisher` to the shared accumulator when
`number - i == 0`.  The dead `if i == 0` branch inside the loop (the guard
`i >= 1` makes it unreachable) is omitted.  `decomposeLoop number i bisher
combos` is the loop with `i` explicit; the recursive call re-enters the
loop at `min (number - i - 1) i`, exactly as `decompose(number-i-1, i, ...)`
does. -/

def decomposeLoop (number i : Int) (bisher : List Int)
    (combos : List (List Int)) : List (List Int) :=
  if h : 1 ≤ i then
    let newbisher : List Int := if number - i ≠ 1 then bisher ++ [i] else []
    let combos' : List (List Int) :=
      if 1 < number - i then
        decomposeLoop (number - i - 1) (min (number - i - 1) i) newbisher combos
      else if number - i = 0 then combos ++ [newbisher]
      else combos
    decomposeLoop number (i - 1) bisher combos'
  else combos
termination_by (number.toNat, i.toNat)
decreasing_by
  · exact Prod.Lex.left _ _ (by omega)
  · exact Prod.Lex.right _ (by omega)

def decompose (number upperlimit : Int) (bisher : List Int)
    (combos : List (List Int)) : List (List Int) :=
  decomposeLoop number (min number upperlimit) bisher combos

def getCombos (length maxLength : Int) : List (List Int) :=
  decompose length maxLength [] []

/-- Step-counting version of `decomposeLoop`: every recursive call consumes
one unit of fuel, and exhausting the fuel yields `none`.  Termination of
the Python recursion is the statement that some finite fuel returns
`some _`. -/
def decomposeLoopF : Nat → Int → Int → List Int → List (List Int) →
    Option (List (List Int))
  | 0, _, _, _, _ => none
  | fuel + 1, number, i, bisher, combos =>
    if 1 ≤ i then
      let newbisher : List Int := if number - i ≠ 1 then bisher ++ [i] else []
      let combos? : Option (List (List Int)) :=
        if 1 < number - i then
          decomposeLoopF fuel (number - i - 1) (min (number - i - 1) i)
            newbisher combos
        else if number - i = 0 then some (combos ++ [newbisher])
        else some combos
      match combos? with
      | none => none
      | some c => decomposeLoopF fuel number (i - 1) bisher c
    else some combos

def getCombosF (fuel : Nat) (length maxLength : Int) :
    Option (List (List Int)) :=
  decomposeLoopF fuel length (min length maxLength) [] []

/-- Shape of the lists `decompose` accumulates: non-increasing, entries in
`[1, M]`, and `sum + (length - 1) = L` (stated as `sum + length = L + 1`). -/
def GoodCombo (L M : Int) (cb : List Int) : Prop :=
  List.Chain' (· ≥ ·) cb ∧ (∀ x ∈ cb, 1 ≤ x ∧ x ≤ M) ∧
    cb.sum + (cb.length : Int) = L + 1

/-! ## `src/ontolearn/concept_generator.py`

`Concept` (the wrapper class itself lives in `ontolearn/concept.py`, which
is not part of the shown sources; its attributes follow the spec's data
model: structural form tag, canonical string render `str`, owl class name,
namespace base iri, and a cached extension).  Python objects compare by
identity in the memo `dict`s, so each `Concept` carries an `id`; the full
IRI is `baseIri ++ name`, as used by `negation`'s registry lookup and by
the `'Thing'` branch's log keys. -/

structure Concept where
  id : ℕ
  name : String
  str : String
  baseIri : String
  form : String
  instances : Finset ℕ
deriving DecidableEq

/-- Python `concept.full_iri` (owlready2: `namespace.base_iri + name`). -/
def Concept.full_iri (c : Concept) : String := c.baseIri ++ c.name

/-- An object property: `get_relations()` yields its (subject, object)
pairs.  The `id` models Python object identity (memo-table tuple keys). -/
structure Role where
  id : ℕ
  name : String
  relations : List (ℕ × ℕ)
deriving DecidableEq

/-- Keys of `log_of_negations`: the generic branch stores `Concept`
objects, the `'Thing'` branch stores `full_iri` strings. -/
inductive NegKey where
  | obj (id : ℕ)
  | iri (s : String)
deriving DecidableEq

/-- Association-list lookup, first match wins (newest `dict` binding,
since insertion prepends). -/
def alookup {α β : Type} [DecidableEq α] : List (α × β) → α → Option β
  | [], _ => none
  | (k, v) :: rest, a => if k = a then some v else alookup rest a

/-- The `namespace_base_iri` of `ConceptGenerator`. -/
def namespaceBase : String := "https://dice-research.org/"

/-- The mutable state of a `ConceptGenerator`: size bounds, the canonical
Top and Bottom concepts, the shared concept registry `self.concepts`
(keyed by full IRI), the operation memo tables, and a fresh-identity
counter for `types.new_class` + `Concept(...)` construction. -/
structure GenState where
  minSize : ℕ
  maxSize : ℕ
  T : Concept
  Bottom : Concept
  registry : List (String × Concept)
  logNeg : List (NegKey × Concept)
  logUnion : List ((ℕ × ℕ) × Concept)
  logInter : List ((ℕ × ℕ) × Concept)
  logExist : List ((ℕ × ℕ) × Concept)
  logUniv : List ((ℕ × ℕ) × Concept)
  nextId : ℕ
deriving DecidableEq

/-- Python `types.new_class(name=n, ...)` with `namespace.base_iri` set to
`namespace_base_iri`, wrapped in a fresh `Concept` with form tag `form`
and extension `insts`.  `str` renders as the owl class name. -/
def mkConcept (st : GenState) (n form : String) (insts : Finset ℕ) :
    Concept × GenState :=
  (⟨st.nextId, n, n, namespaceBase, form, insts⟩,
    { st with nextId := st.nextId + 1 })

/-- Python's lexicographic string order, spelled out over code points
(executable by the kernel, unlike `String.lt`'s iterator recursion). -/
def charListLt : List Char → List Char → Bool
  | [], [] => false
  | [], _ :: _ => true
  | _ :: _, [] => false
  | a :: as, b :: bs =>
    if a.toNat < b.toNat then true
    else if b.toNat < a.toNat then false
    else charListLt as bs

def pyStrLt (a b : String) : Bool := charListLt a.data b.data

/-- Embeds `ConceptGenerator.__concepts_sorter`: ascending extension size
(Python `len(A)`), ties broken by the stable two-element sort on the
`.str` key (`list.sort` swaps exactly when `A.str > B.str`). -/
def concepts_sorter (A B : Concept) : Concept × Concept :=
  if A.instances.card < B.instances.card then (A, B)
  else if B.instances.card < A.instances.card then (B, A)
  else if pyStrLt B.str A.str then (B, A) else (A, B)

/-- Embeds `ConceptGenerator.get_instances_for_restrictions`.  For the
existential case it collects the subjects `x` of pairs `(x, y)` with `y`
in the filler's extension; for the universal case it collects the
*objects* `o` of pairs `(s, o)` with `o` outside the filler's extension
and returns `T.instances` minus that set. -/
def get_instances_for_restrictions (st : GenState) (exist : Bool)
    (role : Role) (filler : Concept) : Finset ℕ :=
  if exist then
    ((role.relations.filter (fun p => p.2 ∈ filler.instances)).map
      Prod.fst).toFinset
  else
    st.T.instances \
      ((role.relations.filter (fun p => p.2 ∉ filler.instances)).map
        Prod.snd).toFinset

/-- Embeds `ConceptGenerator.negation`.  Returns `none` where the Python raises
(the dead `ValueError` arm, and a registry `KeyError` in the
`ObjectComplementOf` arm). -/
def negation (st : GenState) (c : Concept) : Option (Concept × GenState) :=
  match alookup st.logNeg (NegKey.obj c.id) with
  | some r => some (r, st)
  | none =>
    if c.name ≠ "Thing" then
      let insts := st.T.instances \ c.instances
      let (nc, st') := mkConcept st ("¬" ++ c.name) "ObjectComplementOf" insts
      some (nc, { st' with
        logNeg := (NegKey.obj c.id, nc) :: st'.logNeg,
        registry := (nc.full_iri, nc) :: st'.registry })
    else if c.form = "ObjectComplementOf" then
      (alookup st.registry (c.baseIri ++ c.name.drop 1)).map (fun r => (r, st))
    else if c.name = "Thing" then
      let log' := (NegKey.iri st.Bottom.full_iri, c) ::
        (NegKey.iri c.full_iri, st.Bottom) :: st.logNeg
      (alookup log' (NegKey.iri c.full_iri)).map
        (fun r => (r, { st with logNeg := log' }))
    else none

/-- Embeds `ConceptGenerator.existential_restriction`. -/
def existential_restriction (st : GenState) (c : Concept) (r : Role) :
    Concept × GenState :=
  match alookup st.logExist (c.id, r.id) with
  | some v => (v, st)
  | none =>
    let insts := get_instances_for_restrictions st true r c
    if ¬(insts.card ≤ st.maxSize ∧ st.minSize ≤ insts.card) then
      (st.Bottom, st)
    else
      let (nc, st') := mkConcept st ("(∃" ++ r.name ++ "." ++ c.str ++ ")")
        "ObjectSomeValuesFrom" insts
      (nc, { st' with
        logExist := ((c.id, r.id), nc) :: st'.logExist,
        registry := (nc.full_iri, nc) :: st'.registry })

/-- Embeds `ConceptGenerator.universal_restriction`. -/
def universal_restriction (st : GenState) (c : Concept) (r : Role) :
    Concept × GenState :=
  match alookup st.logUniv (c.id, r.id) with
  | some v => (v, st)
  | none =>
    let insts := get_instances_for_restrictions st false r c
    if ¬(insts.card ≤ st.maxSize ∧ st.minSize ≤ insts.card) then
      (st.Bottom, st)
    else
      let (nc, st') := mkConcept st ("(∀" ++ r.name ++ "." ++ c.str ++ ")")
        "ObjectAllValuesFrom" insts
      (nc, { st' with
        logUniv := ((c.id, r.id), nc) :: st'.logUniv,
        registry := (nc.full_iri, nc) :: st'.registry })

/-- Embeds `ConceptGenerator.union`: sorter first, then the `'Nothing'` string
shortcut, then the memo table, then the size-bound collapse. -/
def union (st : GenState) (A₀ B₀ : Concept) : Concept × GenState :=
  let (A, B) := concepts_sorter A₀ B₀
  if A.str = "Nothing" then (B, st)
  else if B.str = "Nothing" then (A, st)
  else
    match alookup st.logUnion (A.id, B.id) with
    | some v => (v, st)
    | none =>
      let insts := A.instances ∪ B.instances
      if ¬(insts.card ≤ st.maxSize ∧ st.minSize ≤ insts.card) then
        (st.Bottom, st)
      else
        let (nc, st') := mkConcept st ("(" ++ A.str ++ " ⊔ " ++ B.str ++ ")")
          "ObjectUnionOf" insts
        (nc, { st' with
          logUnion := ((A.id, B.id), nc) :: st'.logUnion,
          registry := (nc.full_iri, nc) :: st'.registry })

/-- Embeds `ConceptGenerator.intersection`: sorter, then the memo table, then the
`'Nothing'` shortcut (which caches Bottom), then the size-bound collapse. -/
def intersection (st : GenState) (A₀ B₀ : Concept) : Concept × GenState :=
  let (A, B) := concepts_sorter A₀ B₀
  match alookup st.logInter (A.id, B.id) with
  | some v => (v, st)
  | none =>
    if A.str = "Nothing" ∨ B.str = "Nothing" then
      (st.Bottom, { st with logInter := ((A.id, B.id), st.Bottom) :: st.logInter })
    else
      let insts := A.instances ∩ B.instances
      if ¬(insts.card ≤ st.maxSize ∧ st.minSize ≤ insts.card) then
        (st.Bottom, st)
      else
        let (nc, st') := mkConcept st
          ("(" ++ A.str ++ "  ⊓  " ++ B.str ++ ")") "ObjectIntersectionOf" insts
        (nc, { st' with
          logInter := ((A.id, B.id), nc) :: st'.logInter,
          registry := (nc.full_iri, nc) :: st'.registry })

/-- Modelled from the spec: the textbook semantics of the universal
restriction `∀R.C` (spec §4.1/§9, declared authoritative there) — the set
of individuals `x` of the domain such that every `R`-successor of `x`
lies in `C`'s extension.  Stated over a universe, the role's relation
pairs, and the filler's extension, for comparison with what
`universal_restriction` computes. -/
def universalRestrictionTextbook (univ : Finset ℕ) (rel : List (ℕ × ℕ))
    (ext : Finset ℕ) : Finset ℕ :=
  univ.filter (fun x => ∀ p ∈ rel, p.1 = x → p.2 ∈ ext)

/-! ## `src/ontolearn/base_concept_learner.py`: `BaseConceptLearner.__init__`

The collaborators (knowledge base, quality function, heuristic,
refinement operator, search tree) live in modules outside the shown
sources; per the spec's §6 they are consumed through narrow interfaces,
so they are modelled as opaque records with just the fields `__init__`
touches.  `__init__` raises `AssertionError` when `knowledge_base` is
missing (`assert knowledge_base`), and silently substitutes defaults for
the other collaborators. -/

structure KnowledgeBase where
  thing : Concept
deriving DecidableEq

structure QualityFunc where
  name : String
deriving DecidableEq

structure HeuristicFunc where
  name : String
deriving DecidableEq

structure RefinementOperator where
  name : String
  maxChildLength : ℕ
deriving DecidableEq

structure SearchTreeState where
  qualityName : String
  heuristicName : String
deriving DecidableEq

/-- The keyword arguments of `BaseConceptLearner.__init__` that carry
collaborators (`None` = argument omitted) plus the scalar settings. -/
structure LearnerArgs where
  knowledge_base : Option KnowledgeBase
  refinement_operator : Option RefinementOperator
  quality_func : Option QualityFunc
  heuristic_func : Option HeuristicFunc
  search_tree : Option SearchTreeState
  terminate_on_goal : Bool
  iter_bound : ℕ
  max_child_length : ℕ
  root_concept : Option Concept

structure Learner where
  kb : KnowledgeBase
  heuristic : HeuristicFunc
  quality_func : QualityFunc
  rho : RefinementOperator
  search_tree : SearchTreeState
  start_class : Concept
  iter_bound : ℕ
  terminate_on_goal : Bool

def F1Default : QualityFunc := ⟨"F1"⟩

def CELOEHeuristicDefault : HeuristicFunc := ⟨"CELOEHeuristic"⟩

def ModifiedCELOERefinementDefault (maxChildLength : ℕ) :
    RefinementOperator := ⟨"ModifiedCELOERefinement", maxChildLength⟩

def CELOESearchTreeDefault (q : QualityFunc) (h : HeuristicFunc) :
    SearchTreeState := ⟨q.name, h.name⟩

/-- Embeds `BaseConceptLearner.__init__`: `assert knowledge_base` fails fast when
the knowledge base is missing; each of the other collaborators, when
`None`, is replaced by its default (`ModifiedCELOERefinement`,
`CELOEHeuristic`, `F1`, `CELOESearchTree`, `kb.thing`), after which the
trailing `assert`s all hold. -/
def BaseConceptLearner_init (args : LearnerArgs) : Except String Learner :=
  match args.knowledge_base with
  | none => Except.error "assert knowledge_base"
  | some kb =>
    let rho := match args.refinement_operator with
      | none => ModifiedCELOERefinementDefault args.max_child_length
      | some r => r
    let heuristic := match args.heuristic_func with
      | none => CELOEHeuristicDefault
      | some h => h
    let quality := match args.quality_func with
      | none => F1Default
      | some q => q
    let tree := match args.search_tree with
      | none => CELOESearchTreeDefault quality heuristic
      | some t =>
        { t with qualityName := quality.name, heuristicName := heuristic.name }
    let start := match args.root_concept with
      | none => kb.thing
      | some c => c
    Except.ok ⟨kb, heuristic, quality, rho, tree, start,
      args.iter_bound, args.terminate_on_goal⟩

def exceptOk {ε α : Type} : Except ε α → Bool
  | Except.ok _ => true
  | Except.error _ => false

/-! ## `src/examples/concept_learning_evaluation.py`: `compute_f1_score`

Exact-rational embedding: the Python `try/except ZeroDivisionError`
guards become `if`-tests on the denominators (performed, as in the
source, before the corresponding division is used).  The source also
computes `tn = len(neg.difference(individuals))` but never uses it, so it
is omitted here. -/

def compute_f1_score (individuals pos neg : Finset ℕ) : ℚ :=
  let tp : ℕ := (pos ∩ individuals).card
  let fp : ℕ := (neg ∩ individuals).card
  let fn : ℕ := (pos \ individuals).card
  if tp + fn = 0 then 0
  else
    let recall' : ℚ := (tp : ℚ) / ((tp : ℚ) + (fn : ℚ))
    if tp + fp = 0 then 0
    else
      let precision : ℚ := (tp : ℚ) / ((tp : ℚ) + (fp : ℚ))
      if precision = 0 ∨ recall' = 0 then 0
      else 2 * ((precision * recall') / (precision + recall'))

/-! ## Concrete fixtures used by the exhibit/counterexample/witness
theorems below. -/

def topEx : Concept := ⟨0, "Thing", "Thing", namespaceBase, "Class", {1, 2, 3}⟩

def botEx : Concept := ⟨1, "Nothing", "Nothing", namespaceBase, "Class", ∅⟩

def atomX : Concept := ⟨2, "X", "X", "http://example.org/onto/", "Class", {1}⟩

def stEx : GenState := ⟨1, 3, topEx, botEx, [], [], [], [], [], [], 3⟩

def notX : Concept :=
  ⟨3, "¬X", "¬X", namespaceBase, "ObjectComplementOf", {2, 3}⟩

def stX1 : GenState :=
  { stEx with logNeg := [(NegKey.obj 2, notX)],
              registry := [(notX.full_iri, notX)], nextId := 4 }

def cTieA : Concept := ⟨10, "X", "X", "http://example.org/a/", "Class", {1, 2}⟩

def cTieB : Concept := ⟨11, "X", "X", "http://example.org/b/", "Class", {3, 4}⟩

def stTie : GenState := ⟨1, 10, topEx, botEx, [], [], [], [], [], [], 12⟩

def impostorNothing : Concept :=
  ⟨7, "Nothing", "Nothing", "http://example.org/onto/", "Class", ∅⟩

def topSix : Concept :=
  ⟨0, "Thing", "Thing", namespaceBase, "Class", {1, 2, 3, 4, 5, 6}⟩

def bigB6 : Concept :=
  ⟨2, "B", "B", "http://example.org/onto/", "Class", {1, 2, 3, 4, 5, 6}⟩

def stBounds : GenState := ⟨2, 5, topSix, botEx, [], [], [], [], [], [], 10⟩

def aU : Concept := ⟨3, "A", "A", "http://example.org/onto/", "Class", {1, 2, 3}⟩

def bU : Concept := ⟨4, "B2", "B2", "http://example.org/onto/", "Class", {4, 5, 6}⟩

def emptyE : Concept := ⟨5, "E", "E", "http://example.org/onto/", "Class", ∅⟩

def roleR1 : Role := ⟨0, "r", [(1, 4)]⟩

def roleC1 : Role := ⟨1, "s", [(1, 2)]⟩

def kbEx : KnowledgeBase := ⟨topEx⟩

def argsOnlyKB : LearnerArgs :=
  ⟨some kbEx, none, none, none, none, true, 10, 10, none⟩

def argsNoKB : LearnerArgs :=
  ⟨none, none, none, none, none, true, 10, 10, none⟩

/-- The budget strictly decreases along the recursion: `2·number + i`
(clamped to ℕ) bounds the recursion depth, so that much fuel suffices and
the fuel-free function is reached. -/
theorem decomposeLoopF_eq (fuel : Nat) :
    ∀ (number i : Int) (bisher : List Int) (combos : List (List Int)),
      2 * number.toNat + i.toNat < fuel →
      decomposeLoopF fuel number i bisher combos =
        some (decomposeLoop number i bisher combos) := by
  induction fuel with
  | zero => intro number i bisher combos h; omega
  | succ fuel ih =>
    intro number i bisher combos h
    rw [decomposeLoop]
    by_cases hi : 1 ≤ i
    · simp only [decomposeLoopF, if_pos hi, dif_pos hi]
      by_cases hrec : 1 < number - i
      · rw [if_pos hrec, if_pos hrec,
          ih (number - i - 1) (min (number - i - 1) i) _ combos (by omega)]
        exact ih number (i - 1) bisher _ (by omega)
      · by_cases hz : number - i = 0
        · rw [if_neg hrec, if_neg hrec, if_pos hz, if_pos hz]
          exact ih number (i - 1) bisher _ (by omega)
        · rw [if_neg hrec, if_neg hrec, if_neg hz, if_neg hz]
          exact ih number (i - 1) bisher _ (by omega)
    · simp only [decomposeLoopF, if_neg hi, dif_neg hi]

theorem decomposeLoopF_good (L M : Int) :
    ∀ (fuel : Nat) (n i : Int) (bisher : List Int)
      (combos res : List (List Int)),
      decomposeLoopF fuel n i bisher combos = some res →
      bisher.sum + (bisher.length : Int) + n = L →
      (∀ x ∈ bisher, 1 ≤ x ∧ x ≤ M) →
      List.Chain' (· ≥ ·) bisher →
      (∀ x, bisher.getLast? = some x → i ≤ x) →
      i ≤ M →
      (∀ cb ∈ combos, GoodCombo L M cb) →
      ∀ cb ∈ res, GoodCombo L M cb := by
  intro fuel
  induction fuel with
  | zero => intro n i bisher combos res hres; simp [decomposeLoopF] at hres
  | succ fuel ih =>
    intro n i bisher combos res hres hsum hmem hchain hlast hiM hcombos
    by_cases hi : 1 ≤ i
    · simp only [decomposeLoopF, if_pos hi] at hres
      have hext_mem : ∀ x ∈ bisher ++ [i], 1 ≤ x ∧ x ≤ M := by
        intro x hx
        rcases List.mem_append.mp hx with hx | hx
        · exact hmem x hx
        · simp only [List.mem_singleton] at hx
          exact hx ▸ ⟨hi, hiM⟩
      have hext_chain : List.Chain' (· ≥ ·) (bisher ++ [i]) := by
        refine List.chain'_append.mpr ⟨hchain, List.chain'_singleton i, ?_⟩
        intro x hx y hy
        simp only [List.head?_cons, Option.mem_def, Option.some.injEq] at hy
        exact hy ▸ hlast x hx
      have hext_last : (bisher ++ [i]).getLast? = some i :=
        List.getLast?_concat _
      by_cases hrec : 1 < n - i
      · rw [if_pos hrec, if_pos (show n - i ≠ 1 by omega)] at hres
        split at hres
        · exact absurd hres (by simp)
        · rename_i c hinner
          have hc : ∀ cb ∈ c, GoodCombo L M cb := by
            refine ih (n - i - 1) (min (n - i - 1) i) (bisher ++ [i])
              combos c hinner ?_ hext_mem hext_chain ?_ ?_ hcombos
            · simp only [List.sum_append, List.length_append,
                List.sum_cons, List.sum_nil, List.length_cons, List.length_nil]
              push_cast
              omega
            · intro x hx
              rw [hext_last] at hx
              cases hx
              exact min_le_right _ _
            · exact le_trans (min_le_right _ _) hiM
          exact ih n (i - 1) bisher c res hres hsum hmem hchain
            (fun x hx => le_trans (by omega) (hlast x hx)) (by omega) hc
      · rw [if_neg hrec] at hres
        by_cases hz : n - i = 0
        · rw [if_pos hz, if_pos (show n - i ≠ 1 by omega)] at hres
          refine ih n (i - 1) bisher (combos ++ [bisher ++ [i]]) res hres
            hsum hmem hchain
            (fun x hx => le_trans (by omega) (hlast x hx)) (by omega) ?_
          intro cb hcb
          rcases List.mem_append.mp hcb with hcb | hcb
          · exact hcombos cb hcb
          · simp only [List.mem_singleton] at hcb
            subst hcb
            refine ⟨hext_chain, hext_mem, ?_⟩
            simp only [List.sum_append, List.length_append,
              List.sum_cons, List.sum_nil, List.length_cons, List.length_nil]
            push_cast
            omega
        · rw [if_neg hz] at hres
          exact ih n (i - 1) bisher combos res hres hsum hmem hchain
            (fun x hx => le_trans (by omega) (hlast x hx)) (by omega) hcombos
    · simp only [decomposeLoopF, if_neg hi, Option.some.injEq] at hres
      exact hres ▸ hcombos

/-- C8: the size-budget decomposition terminates on every input.  For all
integers `length` and `max_length`, the step-counted embedding of
`getCombos` returns (`some`) within an explicit fuel bound — the budget
passed to each recursive call strictly decreases — and its value is the
one computed by the recursive function `getCombos`. -/
theorem getCombos_terminates (length maxLength : Int) :
    getCombosF (2 * length.toNat + (min length maxLength).toNat + 1)
      length maxLength = some (getCombos length maxLength) := by
  unfold getCombosF getCombos decompose
  exact decomposeLoopF_eq _ _ _ _ _ (by omega)

/-- Evaluation of the size-budget decomposition at the sample input 3/3
(transferred from the fuel-indexed version, which the kernel can run). -/
theorem getCombos_three_three : getCombos 3 3 = [[3], [1, 1]] := by
  have h1 : decomposeLoopF 10 3 3 [] [] = some [[3], [1, 1]] := by decide
  have h2 : decomposeLoopF 10 3 3 [] [] = some (decomposeLoop 3 3 [] []) :=
    decomposeLoopF_eq 10 3 3 [] [] (by decide)
  have h3 : getCombos 3 3 = decomposeLoop 3 3 [] [] := by
    unfold getCombos decompose
    norm_num
  rw [h3]
  exact Option.some_injective _ (h1 ▸ h2).symm

/-- C10: for positive `length` and `max_length`, every list produced by
`getCombos` is a non-increasing sequence of positive integers, each at most
`min length max_length`, and its sum plus one separator per gap equals the
budget: `sum + (len - 1) = length`. -/
theorem getCombos_shape (length maxLength : Int)
    (hl : 1 ≤ length) (hm : 1 ≤ maxLength) :
    ∀ cb ∈ getCombos length maxLength,
      List.Chain' (· ≥ ·) cb ∧
        (∀ x ∈ cb, 1 ≤ x ∧ x ≤ min length maxLength) ∧
        cb.sum + ((cb.length : Int) - 1) = length := by
  intro cb hcb
  have hfuel :
      decomposeLoopF (2 * length.toNat + (min length maxLength).toNat + 1)
        length (min length maxLength) [] [] =
        some (decomposeLoop length (min length maxLength) [] []) :=
    decomposeLoopF_eq _ _ _ _ _ (by omega)
  have hgc : getCombos length maxLength =
      decomposeLoop length (min length maxLength) [] [] := rfl
  have h := decomposeLoopF_good length (min length maxLength)
    (2 * length.toNat + (min length maxLength).toNat + 1)
    length (min length maxLength) [] [] (getCombos length maxLength)
    (hgc ▸ hfuel)
    (by simp) (by simp) (by simp) (by simp) (le_refl _)
    (by simp) cb hcb
  obtain ⟨h1, h2, h3⟩ := h
  exact ⟨h1, h2, by omega⟩

/-- Witness for C10 at `length = 3`, `max_length = 3`, combo `[1, 1]`. -/
theorem getCombos_shape_witness :
    List.Chain' (· ≥ ·) [(1 : Int), 1] ∧
      (∀ x ∈ [(1 : Int), 1], 1 ≤ x ∧ x ≤ min (3 : Int) 3) ∧
      [(1 : Int), 1].sum + (([(1 : Int), 1].length : Int) - 1) = 3 :=
  getCombos_shape 3 3 (by decide) (by decide) [1, 1]
    (by rw [getCombos_three_three]; simp)

/-- The sorter returns its arguments in one of the two orders. -/
theorem concepts_sorter_cases (A B : Concept) :
    concepts_sorter A B = (A, B) ∨ concepts_sorter A B = (B, A) := by
  unfold concepts_sorter
  split
  · exact Or.inl rfl
  · split
    · exact Or.inr rfl
    · split
      · exact Or.inr rfl
      · exact Or.inl rfl

/-- The code-point order is asymmetric. -/
theorem charListLt_asymm : ∀ (as bs : List Char),
    charListLt as bs = true → charListLt bs as = true → False := by
  intro as
  induction as with
  | nil =>
    intro bs h1 h2
    cases bs <;> simp [charListLt] at h1 h2
  | cons a as ih =>
    intro bs h1 h2
    cases bs with
    | nil => simp [charListLt] at h1
    | cons b bs =>
      simp only [charListLt] at h1 h2
      by_cases hab : a.toNat < b.toNat
      · rw [if_neg (by omega), if_pos hab] at h2
        simp at h2
      · by_cases hba : b.toNat < a.toNat
        · rw [if_neg hab, if_pos hba] at h1
          simp at h1
        · rw [if_neg hab, if_neg hba] at h1
          rw [if_neg hba, if_neg hab] at h2
          exact ih bs h1 h2

/-- Two lists neither of which precedes the other are equal. -/
theorem charListLt_false_eq : ∀ (as bs : List Char),
    charListLt as bs = false → charListLt bs as = false → as = bs := by
  intro as
  induction as with
  | nil =>
    intro bs h1 h2
    cases bs with
    | nil => rfl
    | cons b bs => simp [charListLt] at h1
  | cons a as ih =>
    intro bs h1 h2
    cases bs with
    | nil => simp [charListLt] at h2
    | cons b bs =>
      simp only [charListLt] at h1 h2
      by_cases hab : a.toNat < b.toNat
      · rw [if_pos hab] at h1
        simp at h1
      · by_cases hba : b.toNat < a.toNat
        · rw [if_pos hba] at h2
          simp at h2
        · rw [if_neg hab, if_neg hba] at h1
          rw [if_neg hba, if_neg hab] at h2
          have hchar : a = b := by
            have hn : a.toNat = b.toNat := by omega
            have hv : a.val = b.val := by
              unfold Char.toNat at hn
              exact UInt32.toNat.inj hn
            exact Char.ext hv
          rw [hchar, ih bs h1 h2]

theorem pyStrLt_asymm (a b : String) (h1 : pyStrLt a b = true)
    (h2 : pyStrLt b a = true) : False :=
  charListLt_asymm _ _ h1 h2

theorem pyStrLt_false_eq (a b : String) (h1 : pyStrLt a b = false)
    (h2 : pyStrLt b a = false) : a = b := by
  have hd := charListLt_false_eq _ _ h1 h2
  cases a; cases b
  exact congrArg String.mk hd

/-- Canonicalization: swapping the arguments does not change the sorter's
output, provided the two concepts are distinguished by extension size or
by string render (or are equal). -/
theorem concepts_sorter_symm (A B : Concept)
    (h : A.instances.card ≠ B.instances.card ∨ A.str ≠ B.str ∨ A = B) :
    concepts_sorter B A = concepts_sorter A B := by
  unfold concepts_sorter
  rcases lt_trichotomy A.instances.card B.instances.card with hc | hc | hc
  · rw [if_neg (by omega), if_pos hc, if_pos hc]
  · have h4 : ¬A.instances.card < B.instances.card := by omega
    have h5 : ¬B.instances.card < A.instances.card := by omega
    rw [if_neg h5, if_neg h4, if_neg h4, if_neg h5]
    by_cases hAB : pyStrLt A.str B.str = true
    · have hBA : pyStrLt B.str A.str = false := by
        rcases Bool.eq_false_or_eq_true (pyStrLt B.str A.str) with hBA | hBA
        · exact absurd (pyStrLt_asymm _ _ hAB hBA) not_false
        · exact hBA
      rw [if_pos hAB, if_neg (by simp [hBA])]
    · have hAB' : pyStrLt A.str B.str = false := Bool.eq_false_iff.mpr hAB
      by_cases hBA : pyStrLt B.str A.str = true
      · rw [if_neg (by simp [hAB']), if_pos hBA]
      · have hBA' : pyStrLt B.str A.str = false := Bool.eq_false_iff.mpr hBA
        rw [if_neg (by simp [hAB']), if_neg (by simp [hBA'])]
        rcases h with h | h | h
        · omega
        · exact absurd (pyStrLt_false_eq _ _ hAB' hBA') h
        · subst h; rfl
  · rw [if_pos hc, if_neg (by omega), if_pos hc]

/-- An `iri`-keyed binding never answers an `obj`-keyed lookup. -/
theorem alookup_iri_obj (s : String) (v : Concept)
    (l : List (NegKey × Concept)) (n : ℕ) :
    alookup ((NegKey.iri s, v) :: l) (NegKey.obj n) = alookup l (NegKey.obj n) := by
  simp [alookup]

/-- Calling `negation` twice on the same concept returns the identical
concept object both times (the second call is served from a memo table or
recomputes the same canonical object). -/
theorem negation_twice (st : GenState) (C : Concept) (r₁ : Concept)
    (st₁ : GenState) (h : negation st C = some (r₁, st₁)) :
    ∃ st₂, negation st₁ C = some (r₁, st₂) := by
  unfold negation at h ⊢
  cases hcache : alookup st.logNeg (NegKey.obj C.id) with
  | some r =>
    rw [hcache] at h
    simp only [Option.some.injEq, Prod.mk.injEq] at h
    obtain ⟨hr, hst⟩ := h
    subst hr; subst hst
    rw [hcache]
    exact ⟨st, rfl⟩
  | none =>
    rw [hcache] at h
    by_cases hname : C.name = "Thing"
    · rw [if_neg (by simpa using hname)] at h
      by_cases hform : C.form = "ObjectComplementOf"
      · rw [if_pos hform] at h
        cases hreg : alookup st.registry (C.baseIri ++ C.name.drop 1) with
        | none => rw [hreg] at h; simp at h
        | some r =>
          rw [hreg] at h
          simp only [Option.map_some', Option.some.injEq, Prod.mk.injEq] at h
          obtain ⟨hr, hst⟩ := h
          subst hr; subst hst
          rw [hcache, if_neg (by simpa using hname), if_pos hform, hreg]
          exact ⟨st, rfl⟩
      · rw [if_neg hform, if_pos hname] at h
        by_cases hb : st.Bottom.full_iri = C.full_iri
        · simp only [alookup, NegKey.iri.injEq, hb, eq_self_iff_true, ite_true,
            Option.map_some', Option.some.injEq, Prod.mk.injEq] at h
          obtain ⟨hr, hst⟩ := h
          subst hr; subst hst
          simp [alookup, alookup_iri_obj, hcache, hname, hform, hb]
        · simp only [alookup, NegKey.iri.injEq, if_neg hb, eq_self_iff_true, ite_true,
            Option.map_some', Option.some.injEq, Prod.mk.injEq] at h
          obtain ⟨hr, hst⟩ := h
          subst hr; subst hst
          simp [alookup, alookup_iri_obj, hcache, hname, hform, hb]
    · rw [if_pos (by simpa using hname)] at h
      simp only [mkConcept, Option.some.injEq, Prod.mk.injEq] at h
      obtain ⟨hr, hst⟩ := h
      subst hr; subst hst
      simp only [alookup, if_pos rfl]
      exact ⟨_, rfl⟩

/-- After `union A B`, the swapped call `union B A` (run on the resulting
state) returns the same concept object and leaves the state unchanged,
whenever the sorter canonicalizes the two argument orders identically. -/
theorem union_canonical_twice (st : GenState) (A B : Concept)
    (h : A.instances.card ≠ B.instances.card ∨ A.str ≠ B.str ∨ A = B)
    (r₁ : Concept) (st₁ : GenState) (hu : union st A B = (r₁, st₁)) :
    union st₁ B A = (r₁, st₁) := by
  have hs := concepts_sorter_symm A B h
  rcases hPQ : concepts_sorter A B with ⟨P, Q⟩
  rw [hPQ] at hs
  unfold union at hu ⊢
  rw [hPQ] at hu
  rw [hs]
  simp only at hu ⊢
  by_cases h1 : P.str = "Nothing"
  · rw [if_pos h1] at hu
    rw [if_pos h1]
    obtain ⟨rfl, rfl⟩ := Prod.mk.injEq .. ▸ hu
    rfl
  · rw [if_neg h1] at hu
    rw [if_neg h1]
    by_cases h2 : Q.str = "Nothing"
    · rw [if_pos h2] at hu
      rw [if_pos h2]
      obtain ⟨rfl, rfl⟩ := Prod.mk.injEq .. ▸ hu
      rfl
    · rw [if_neg h2] at hu
      rw [if_neg h2]
      cases hc : alookup st.logUnion (P.id, Q.id) with
      | some v =>
        rw [hc] at hu
        obtain ⟨rfl, rfl⟩ := Prod.mk.injEq .. ▸ hu
        rw [hc]
      | none =>
        rw [hc] at hu
        by_cases hbound : ¬((P.instances ∪ Q.instances).card ≤ st.maxSize ∧
            st.minSize ≤ (P.instances ∪ Q.instances).card)
        · rw [if_pos hbound] at hu
          obtain ⟨rfl, rfl⟩ := Prod.mk.injEq .. ▸ hu
          rw [hc, if_pos hbound]
        · rw [if_neg hbound] at hu
          simp only [mkConcept, Prod.mk.injEq] at hu
          obtain ⟨rfl, rfl⟩ := hu
          simp [alookup]

/-- C5 (amended): derivation is idempotently cached.  `negation` called
twice sequentially returns the identical concept object both times; and
`union A B` followed by `union B A` returns the identical cached concept
object, provided `A` and `B` are distinguished by the canonicalization
key — extension size, then string render — or are the same concept.  (Two
distinct concepts tying on both size and render defeat the
canonicalization; see the counterexample.) -/
theorem derivation_idempotently_cached :
    (∀ (st : GenState) (C r₁ : Concept) (st₁ : GenState),
        negation st C = some (r₁, st₁) →
        ∃ st₂, negation st₁ C = some (r₁, st₂)) ∧
    (∀ (st : GenState) (A B : Concept),
        A.instances.card ≠ B.instances.card ∨ A.str ≠ B.str ∨ A = B →
        ∀ (r₁ : Concept) (st₁ : GenState),
          union st A B = (r₁, st₁) → union st₁ B A = (r₁, st₁)) :=
  ⟨negation_twice, union_canonical_twice⟩

/-- C5 counterexample: two distinct concepts with equal extension size
and equal string render (`cTieA`, `cTieB`) defeat the operand
canonicalization: `union(A,B)` and `union(B,A)` create and return two
distinct concept objects. -/
theorem union_order_counterexample :
    cTieA ≠ cTieB ∧
      cTieA.instances.card = cTieB.instances.card ∧
      cTieA.str = cTieB.str ∧
      (union (union stTie cTieA cTieB).2 cTieB cTieA).1 ≠
        (union stTie cTieA cTieB).1 := by decide

/-- Witness for the amended C5 at concrete inputs: the `negation` part at
the cached state `stX1` (reached by `negation stEx atomX`), and the
`union` part at operands of distinct extension sizes. -/
theorem derivation_idempotently_cached_witness :
    (∃ st₂, negation stX1 atomX = some (notX, st₂)) ∧
      union stEx atomX botEx = (atomX, stEx) :=
  ⟨derivation_idempotently_cached.1 stEx atomX notX stX1 (by decide),
   derivation_idempotently_cached.2 stEx botEx atomX (Or.inl (by decide))
     atomX stEx (by decide)⟩

/-- C6 (amended): union with the canonical Bottom returns the other
operand whenever that operand's string render is not `"Nothing"` (the
shortcut keys on the render, not on object identity); intersection with
the canonical Bottom returns the canonical Bottom (over a memo table
with no stale entry for the pair, as in any reachable state). -/
theorem bottom_identity_shortcuts :
    (∀ (st : GenState) (C : Concept), st.Bottom.str = "Nothing" →
        C.str ≠ "Nothing" →
        (union st C st.Bottom).1 = C ∧ (union st st.Bottom C).1 = C) ∧
    (∀ (st : GenState) (C : Concept), st.Bottom.str = "Nothing" →
        alookup st.logInter (C.id, st.Bottom.id) = none →
        alookup st.logInter (st.Bottom.id, C.id) = none →
        (intersection st C st.Bottom).1 = st.Bottom ∧
          (intersection st st.Bottom C).1 = st.Bottom) := by
  constructor
  · intro st C hB hC
    constructor
    · rcases concepts_sorter_cases C st.Bottom with hPQ | hPQ
      · unfold union
        rw [hPQ]
        simp only
        rw [if_neg hC, if_pos hB]
      · unfold union
        rw [hPQ]
        simp only
        rw [if_pos hB]
    · rcases concepts_sorter_cases st.Bottom C with hPQ | hPQ
      · unfold union
        rw [hPQ]
        simp only
        rw [if_pos hB]
      · unfold union
        rw [hPQ]
        simp only
        rw [if_neg hC, if_pos hB]
  · intro st C hB h1 h2
    constructor
    · rcases concepts_sorter_cases C st.Bottom with hPQ | hPQ
      · unfold intersection
        rw [hPQ]
        simp only
        rw [h1, if_pos (Or.inr hB)]
      · unfold intersection
        rw [hPQ]
        simp only
        rw [h2, if_pos (Or.inl hB)]
    · rcases concepts_sorter_cases st.Bottom C with hPQ | hPQ
      · unfold intersection
        rw [hPQ]
        simp only
        rw [h2, if_pos (Or.inl hB)]
      · unfold intersection
        rw [hPQ]
        simp only
        rw [h1, if_pos (Or.inr hB)]

/-- C6 counterexample: a concept distinct from the canonical Bottom, but
whose string render is `"Nothing"` and whose extension is empty, is
conflated with Bottom by the string shortcut — its union with Bottom
returns the canonical Bottom, not the operand itself as the claim
states. -/
theorem union_bottom_impostor_counterexample :
    impostorNothing ≠ stEx.Bottom ∧
      (union stEx impostorNothing stEx.Bottom).1 = stEx.Bottom ∧
      (union stEx impostorNothing stEx.Bottom).1 ≠ impostorNothing := by
  decide

/-- Witness for the amended C6 at the concrete generator `stEx` and the
ordinary concept `atomX`. -/
theorem bottom_identity_shortcuts_witness :
    ((union stEx atomX stEx.Bottom).1 = atomX ∧
      (union stEx stEx.Bottom atomX).1 = atomX) ∧
    ((intersection stEx atomX stEx.Bottom).1 = stEx.Bottom ∧
      (intersection stEx stEx.Bottom atomX).1 = stEx.Bottom) :=
  ⟨bottom_identity_shortcuts.1 stEx atomX (by decide) (by decide),
   bottom_identity_shortcuts.2 stEx atomX (by decide) (by decide) (by decide)⟩

/-- C2 (amended): a first-time (uncached) derivation whose computed
extension size falls outside `[min_size_of_concept, max_size_of_concept]`
returns the canonical Bottom — for `intersection`,
`existential_restriction` and `universal_restriction` unconditionally,
and for `union` provided neither operand's string render is `"Nothing"`
(the Bottom identity shortcut takes precedence over the size check and
returns the other operand unchanged; see the counterexample). -/
theorem size_bound_collapse :
    (∀ (st : GenState) (A B : Concept),
        A.str ≠ "Nothing" → B.str ≠ "Nothing" →
        alookup st.logUnion (A.id, B.id) = none →
        alookup st.logUnion (B.id, A.id) = none →
        ¬((A.instances ∪ B.instances).card ≤ st.maxSize ∧
          st.minSize ≤ (A.instances ∪ B.instances).card) →
        union st A B = (st.Bottom, st)) ∧
    (∀ (st : GenState) (A B : Concept),
        alookup st.logInter (A.id, B.id) = none →
        alookup st.logInter (B.id, A.id) = none →
        ¬((A.instances ∩ B.instances).card ≤ st.maxSize ∧
          st.minSize ≤ (A.instances ∩ B.instances).card) →
        (intersection st A B).1 = st.Bottom) ∧
    (∀ (st : GenState) (c : Concept) (r : Role),
        alookup st.logExist (c.id, r.id) = none →
        ¬((get_instances_for_restrictions st true r c).card ≤ st.maxSize ∧
          st.minSize ≤ (get_instances_for_restrictions st true r c).card) →
        existential_restriction st c r = (st.Bottom, st)) ∧
    (∀ (st : GenState) (c : Concept) (r : Role),
        alookup st.logUniv (c.id, r.id) = none →
        ¬((get_instances_for_restrictions st false r c).card ≤ st.maxSize ∧
          st.minSize ≤ (get_instances_for_restrictions st false r c).card) →
        universal_restriction st c r = (st.Bottom, st)) := by
  refine ⟨?_, ?_, ?_, ?_⟩
  · intro st A B hA hB hU1 hU2 hbound
    rcases concepts_sorter_cases A B with hPQ | hPQ
    · unfold union
      rw [hPQ]
      simp only
      rw [if_neg hA, if_neg hB, hU1, if_pos hbound]
    · unfold union
      rw [hPQ]
      simp only
      rw [if_neg hB, if_neg hA, hU2,
        if_pos (by rwa [Finset.union_comm] at hbound)]
  · intro st A B hI1 hI2 hbound
    rcases concepts_sorter_cases A B with hPQ | hPQ
    · unfold intersection
      rw [hPQ]
      simp only
      rw [hI1]
      by_cases hN : A.str = "Nothing" ∨ B.str = "Nothing"
      · rw [if_pos hN]
      · rw [if_neg hN, if_pos hbound]
    · unfold intersection
      rw [hPQ]
      simp only
      rw [hI2]
      by_cases hN : B.str = "Nothing" ∨ A.str = "Nothing"
      · rw [if_pos hN]
      · rw [if_neg hN, if_pos (by rwa [Finset.inter_comm] at hbound)]
  · intro st c r hc hbound
    unfold existential_restriction
    rw [hc]
    simp only
    rw [if_pos hbound]
  · intro st c r hc hbound
    unfold universal_restriction
    rw [hc]
    simp only
    rw [if_pos hbound]

/-- C2 counterexample: with `min_size_of_concept = 2` and
`max_size_of_concept = 5`, the union of the canonical Bottom with a
concept of extension size 6 has a combined extension of 6 members, yet
`union` returns that operand (the `"Nothing"` shortcut fires before the
size check), not the canonical Bottom as the claim states. -/
theorem size_bound_collapse_counterexample :
    stBounds.minSize = 2 ∧ stBounds.maxSize = 5 ∧
      (stBounds.Bottom.instances ∪ bigB6.instances).card = 6 ∧
      (union stBounds stBounds.Bottom bigB6).1 = bigB6 ∧
      bigB6 ≠ stBounds.Bottom := by
  decide

/-- Witness for the amended C2: all four operations collapse concrete
out-of-bounds derivations to the canonical Bottom on the fresh generator
`stBounds` (`min = 2`, `max = 5`). -/
theorem size_bound_collapse_witness :
    union stBounds aU bU = (stBounds.Bottom, stBounds) ∧
      (intersection stBounds aU bU).1 = stBounds.Bottom ∧
      existential_restriction stBounds bU roleR1 = (stBounds.Bottom, stBounds) ∧
      universal_restriction stBounds bU roleR1 = (stBounds.Bottom, stBounds) :=
  ⟨size_bound_collapse.1 stBounds aU bU (by decide) (by decide) (by decide)
      (by decide) (by decide),
   size_bound_collapse.2.1 stBounds aU bU (by decide) (by decide) (by decide),
   size_bound_collapse.2.2.1 stBounds bU roleR1 (by decide) (by decide),
   size_bound_collapse.2.2.2 stBounds bU roleR1 (by decide) (by decide)⟩

/-- C1 (code-bug exhibit): `universal_restriction` removes the violating
*objects* from the universe instead of the subjects with a violating
successor.  On the universe `{1..6}` with role pairs `[(1, 2)]` and an
empty filler extension it builds a concept with extension
`{1, 3, 4, 5, 6}` (within the size bounds `[2, 5]`), while the textbook
semantics — stated by the claim and by the method's own docstring — give
`{2, 3, 4, 5, 6}`: individual `1` has the `R`-successor `2` outside the
filler, yet the computed concept contains `1`. -/
theorem universal_restriction_divergence :
    (universal_restriction stBounds emptyE roleC1).1.instances =
      ({1, 3, 4, 5, 6} : Finset ℕ) ∧
    universalRestrictionTextbook stBounds.T.instances roleC1.relations
      emptyE.instances = ({2, 3, 4, 5, 6} : Finset ℕ) ∧
    (universal_restriction stBounds emptyE roleC1).1.instances ≠
      universalRestrictionTextbook stBounds.T.instances roleC1.relations
        emptyE.instances := by
  decide

/-- C3 (code-bug exhibit): `negation(Top)` does return the canonical
Bottom, but `negation(Bottom)` misses the memo table (the `'Thing'`
branch stores under `full_iri` string keys while the lookup uses the
concept object) and falls into the generic branch, constructing a fresh
`¬Nothing` concept (the identity counter advances from 3 to 4) instead of
returning the canonical Top. -/
theorem negation_top_bottom_divergence :
    ((negation stEx stEx.T).map fun p => p.1) = some stEx.Bottom ∧
    ((negation stEx stEx.Bottom).map fun p => p.1.name) = some "¬Nothing" ∧
    ((negation stEx stEx.Bottom).map fun p => p.1) ≠ some stEx.T ∧
    ((negation stEx stEx.Bottom).map fun p => p.2.nextId) = some 4 := by
  decide

/-- C4 (code-bug exhibit): the double-negation-elimination branch of
`negation` is unreachable — a complement concept is named `¬X`, never
`Thing`, so the guard `if not (name == 'Thing')` always routes it to the
generic branch.  `negation(negation(atomX))` therefore constructs a fresh
`¬¬X` concept (a new object with identity 4) instead of returning `atomX`
(identity 2) itself. -/
theorem double_negation_divergence :
    (((negation stEx atomX).bind fun p => negation p.2 p.1).map
        fun p => p.1.name) = some "¬¬X" ∧
    (((negation stEx atomX).bind fun p => negation p.2 p.1).map
        fun p => p.1.id) = some 4 ∧
    atomX.id = 2 ∧
    (((negation stEx atomX).bind fun p => negation p.2 p.1).map
        fun p => p.1) ≠ some atomX := by
  decide

/-- C7 (amended): only a missing knowledge base fails fast at learner
construction (`assert knowledge_base`); a missing quality function,
heuristic function, refinement operator or root concept does not raise —
the constructor silently substitutes the default collaborator
(`F1`, `CELOEHeuristic`, `ModifiedCELOERefinement`, `kb.thing`) and
succeeds. -/
theorem learner_init_defaults :
    (∀ args : LearnerArgs, args.knowledge_base = none →
        BaseConceptLearner_init args =
          Except.error "assert knowledge_base") ∧
    (∀ (args : LearnerArgs) (kb : KnowledgeBase),
        args.knowledge_base = some kb →
        ∃ l : Learner, BaseConceptLearner_init args = Except.ok l ∧
          (args.quality_func = none → l.quality_func = F1Default) ∧
          (args.heuristic_func = none →
            l.heuristic = CELOEHeuristicDefault) ∧
          (args.refinement_operator = none →
            l.rho = ModifiedCELOERefinementDefault args.max_child_length) ∧
          (args.root_concept = none → l.start_class = kb.thing)) := by
  constructor
  · intro args h
    unfold BaseConceptLearner_init
    rw [h]
  · intro args kb h
    unfold BaseConceptLearner_init
    rw [h]
    refine ⟨_, rfl, ?_, ?_, ?_, ?_⟩ <;> intro hn <;> simp [hn]

/-- C7 counterexample: constructing a learner with only a knowledge base
— quality function, heuristic, refinement operator, search tree and root
concept all missing — succeeds, contradicting the claim that any missing
collaborator fails fast at construction time. -/
theorem learner_init_missing_collaborators_counterexample :
    exceptOk (BaseConceptLearner_init argsOnlyKB) = true := rfl

/-- Witness for the amended C7: the missing-knowledge-base error and the
defaulted construction, at the concrete argument records. -/
theorem learner_init_defaults_witness :
    BaseConceptLearner_init argsNoKB =
        Except.error "assert knowledge_base" ∧
      ∃ l : Learner, BaseConceptLearner_init argsOnlyKB = Except.ok l ∧
        (argsOnlyKB.quality_func = none → l.quality_func = F1Default) ∧
        (argsOnlyKB.heuristic_func = none →
          l.heuristic = CELOEHeuristicDefault) ∧
        (argsOnlyKB.refinement_operator = none →
          l.rho = ModifiedCELOERefinementDefault argsOnlyKB.max_child_length) ∧
        (argsOnlyKB.root_concept = none → l.start_class = kbEx.thing) :=
  ⟨learner_init_defaults.1 argsNoKB rfl,
   learner_init_defaults.2 argsOnlyKB kbEx rfl⟩

/-- C9: `compute_f1_score` equals `tp / (tp + (fp + fn) / 2)` where
`tp = |pos ∩ individuals|`, `fp = |neg ∩ individuals|`,
`fn = |pos \ individuals|`; every branch in which the source returns `0`
(zero or undefined precision/recall) coincides with the formula's value
under the `0`-valued division-by-zero convention. -/
theorem compute_f1_score_formula (individuals pos neg : Finset ℕ) :
    compute_f1_score individuals pos neg =
      ((pos ∩ individuals).card : ℚ) /
        (((pos ∩ individuals).card : ℚ) +
          (((neg ∩ individuals).card : ℚ) +
            ((pos \ individuals).card : ℚ)) / 2) := by
  unfold compute_f1_score
  simp only
  set tp := (pos ∩ individuals).card with htp
  set fp := (neg ∩ individuals).card with hfp
  set fn := (pos \ individuals).card with hfn
  by_cases h1 : tp + fn = 0
  · rw [if_pos h1]
    have h0 : tp = 0 := by omega
    rw [h0]
    simp
  · rw [if_neg h1]
    by_cases h2 : tp + fp = 0
    · rw [if_pos h2]
      have h0 : tp = 0 := by omega
      rw [h0]
      simp
    · rw [if_neg h2]
      by_cases h3 : tp = 0
      · rw [if_pos (Or.inl (by rw [h3]; simp))]
        rw [h3]
        simp
      · have htpp : (0 : ℚ) < tp := by
          exact_mod_cast Nat.pos_of_ne_zero h3
        have hfpn : (0 : ℚ) ≤ fp := Nat.cast_nonneg _
        have hfnn : (0 : ℚ) ≤ fn := Nat.cast_nonneg _
        have hpf : (tp : ℚ) + fp ≠ 0 := ne_of_gt (by linarith)
        have hnf : (tp : ℚ) + fn ≠ 0 := ne_of_gt (by linarith)
        have hprec : (tp : ℚ) / ((tp : ℚ) + fp) ≠ 0 :=
          ne_of_gt (div_pos htpp (by linarith))
        have hrec : (tp : ℚ) / ((tp : ℚ) + fn) ≠ 0 :=
          ne_of_gt (div_pos htpp (by linarith))
        rw [if_neg (by push_neg; exact ⟨hprec, hrec⟩)]
        have hsum : (tp : ℚ) / ((tp : ℚ) + fp) +
            (tp : ℚ) / ((tp : ℚ) + fn) ≠ 0 :=
          ne_of_gt (add_pos (div_pos htpp (by linarith))
            (div_pos htpp (by linarith)))
        have hden : (tp : ℚ) + ((fp : ℚ) + fn) / 2 ≠ 0 :=
          ne_of_gt (by linarith)
        field_simp
        ring

end Ontolearn
